import Mathlib

/-!
Verification of the IAM / IPAM automation scripts.

Shallow embedding of the scripts in this repository:

* `src/assign_iam_roles.py` — bundled-role resolution, `add_or_update_binding`,
  and the fetch / modify / dry-run-or-apply flow of `main`.
* `src/deploy_project_owner_remove.py` — etag guard and removal of the
  `roles/owner` member from a fetched policy.
* `src/in.py` — Infoblox reserve / delete with a dry-run flag.
* `src/infob-auomation-v2/infob_ip.py` — `delete_cidr` and the delete branch of `main`.
* `src/infoblox/infoblox_reserve_cidr.py` — `find_next_available_cidr` and the
  dry-run branch of `main`.

Dictionaries that cross the Python API boundary are modelled as structures with
`Option` fields for keys that may be absent; effectful functions are modelled as
pure functions from an explicit environment (the responses the remote store
would give) to a result paired with the trace of store operations issued.
-/

set_option maxRecDepth 10000

/-- One element of a policy's `bindings` list: a dict with keys `role`,
`members` and optionally `condition` (whose payload we keep opaque). -/
structure Binding where
  role : String
  members : List String
  condition : Option String
deriving DecidableEq, Repr

/-- A policy as the dict produced by `to_dict` / `gcloud get-iam-policy`:
`version`, `bindings` and `etag` keys may each be absent (`none`). -/
structure PolicyDict where
  version : Option Nat
  bindings : Option (List Binding)
  etag : Option String
deriving DecidableEq, Repr

/-- Python `sorted(list(set(xs)))`: the distinct elements in order. -/
def sortedDedup (xs : List String) : List String :=
  (xs.dedup).insertionSort (· ≤ ·)

/-- Python `next((b for b in bindings if b.get('role') == role), None)`: the first
binding carrying the given role, scanning left to right. -/
def firstWith (role : String) : List Binding → Option Binding
  | [] => none
  | b :: rest => if b.role = role then some b else firstWith role rest

/-- Body of the found-branch of `add_or_update_binding`: append the member if
absent, then `sorted(list(set(members)))`, and `del binding['condition']`. -/
def updatedBinding (member : String) (b : Binding) : Binding :=
  { role := b.role,
    members := if member ∈ b.members then b.members
               else sortedDedup (b.members ++ [member]),
    condition := none }

/-- The `for binding in policy.get('bindings', [])` loop of
`add_or_update_binding`: update the first binding with the given role (then
`break`), or report `none` when no binding matches (`found_binding` stays
false). -/
def updateFirst (role member : String) : List Binding → Option (List Binding)
  | [] => none
  | b :: rest =>
    if b.role = role then some (updatedBinding member b :: rest)
    else (updateFirst role member rest).map (fun l => b :: l)

/-- Function `add_or_update_binding(policy, role, member_string)`
(src/assign_iam_roles.py, lines 63-98), as a function on the policy value. -/
def add_or_update_binding (policy : PolicyDict) (role member : String) : PolicyDict :=
  match policy.bindings with
  | some bs =>
    match updateFirst role member bs with
    | some bs2 => { policy with bindings := some bs2 }
    | none =>
      { policy with
        bindings := some (bs ++ [{ role := role, members := [member], condition := none }]) }
  | none => { policy with bindings := some [{ role := role, members := [member], condition := none }] }

/-- The role loop of `main` (src/assign_iam_roles.py, lines 168-169):
`for role in sorted(list(all_roles_to_assign)):` fold `add_or_update_binding`
over the roles in sorted order. -/
def applyRolesLoop (policy : PolicyDict) (member : String) (roles : List String) : PolicyDict :=
  (sortedDedup roles).foldl (fun q r => add_or_update_binding q r member) policy

/-! Equation lemmas for `add_or_update_binding`. -/

theorem add_or_update_binding_nones {p : PolicyDict} (r m : String) (h : p.bindings = none) :
    add_or_update_binding p r m =
      { p with bindings := some [{ role := r, members := [m], condition := none }] } := by
  simp only [add_or_update_binding, h]

theorem add_or_update_binding_found {p : PolicyDict} {bs bs2 : List Binding} (r m : String)
    (h : p.bindings = some bs) (hu : updateFirst r m bs = some bs2) :
    add_or_update_binding p r m = { p with bindings := some bs2 } := by
  simp only [add_or_update_binding, h, hu]

theorem add_or_update_binding_notfound {p : PolicyDict} {bs : List Binding} (r m : String)
    (h : p.bindings = some bs) (hu : updateFirst r m bs = none) :
    add_or_update_binding p r m =
      { p with bindings := some (bs ++ [{ role := r, members := [m], condition := none }]) } := by
  simp only [add_or_update_binding, h, hu]

/-! Basic facts about `sortedDedup`, `firstWith` and `updateFirst`. -/

theorem mem_sortedDedup {a : String} {xs : List String} : a ∈ sortedDedup xs ↔ a ∈ xs := by
  rw [sortedDedup, (List.perm_insertionSort _ _).mem_iff, List.mem_dedup]

theorem nodup_sortedDedup (xs : List String) : (sortedDedup xs).Nodup :=
  (List.perm_insertionSort _ _).nodup_iff.mpr (List.nodup_dedup xs)

theorem mem_updatedBinding (m : String) (b : Binding) : m ∈ (updatedBinding m b).members := by
  unfold updatedBinding
  by_cases h : m ∈ b.members
  · simp [h]
  · simp [h, mem_sortedDedup]

theorem updatedBinding_stable {m : String} {b : Binding} (hm : m ∈ b.members)
    (hc : b.condition = none) : updatedBinding m b = b := by
  cases b
  simp_all [updatedBinding]

theorem updateFirst_eq_none {r m : String} {bs : List Binding} :
    updateFirst r m bs = none ↔ firstWith r bs = none := by
  induction bs with
  | nil => simp [updateFirst, firstWith]
  | cons b rest ih =>
    by_cases h : b.role = r
    · simp [updateFirst, firstWith, h]
    · simp [updateFirst, firstWith, h, ih]

theorem firstWith_updateFirst_self {r m : String} {bs bs2 : List Binding}
    (h : updateFirst r m bs = some bs2) :
    ∃ b, firstWith r bs = some b ∧ firstWith r bs2 = some (updatedBinding m b) := by
  induction bs generalizing bs2 with
  | nil => simp [updateFirst] at h
  | cons b rest ih =>
    by_cases hb : b.role = r
    · simp only [updateFirst, if_pos hb, Option.some.injEq] at h
      subst h
      exact ⟨b, by simp [firstWith, hb], by simp [firstWith, updatedBinding, hb]⟩
    · simp only [updateFirst, if_neg hb] at h
      obtain ⟨rest2, h1, rfl⟩ := Option.map_eq_some'.mp h
      obtain ⟨b0, hb0, hb0'⟩ := ih h1
      exact ⟨b0, by simp [firstWith, hb, hb0], by simp [firstWith, hb, hb0']⟩

theorem firstWith_updateFirst_other {rt ru m : String} (hne : rt ≠ ru) {bs bs2 : List Binding}
    (h : updateFirst ru m bs = some bs2) : firstWith rt bs2 = firstWith rt bs := by
  induction bs generalizing bs2 with
  | nil => simp [updateFirst] at h
  | cons b rest ih =>
    by_cases hb : b.role = ru
    · simp only [updateFirst, if_pos hb, Option.some.injEq] at h
      subst h
      have hb' : ¬ (updatedBinding m b).role = rt := by
        simp [updatedBinding, hb]
        exact fun he => hne he.symm
      have hbrt : ¬ b.role = rt := by rw [hb]; exact fun he => hne he.symm
      simp [firstWith, hb', hbrt]
    · simp only [updateFirst, if_neg hb] at h
      obtain ⟨rest2, h1, rfl⟩ := Option.map_eq_some'.mp h
      simp [firstWith, ih h1]

theorem firstWith_append_left {r : String} {l1 : List Binding} {b : Binding}
    (h : firstWith r l1 = some b) (l2 : List Binding) : firstWith r (l1 ++ l2) = some b := by
  induction l1 with
  | nil => simp [firstWith] at h
  | cons b0 rest ih =>
    by_cases hb : b0.role = r
    · simp only [firstWith, if_pos hb, Option.some.injEq] at h
      subst h
      simp [firstWith, hb]
    · simp only [firstWith, if_neg hb] at h
      simp [firstWith, hb, ih h]

theorem firstWith_append_none {r : String} {l1 : List Binding}
    (h : firstWith r l1 = none) (l2 : List Binding) : firstWith r (l1 ++ l2) = firstWith r l2 := by
  induction l1 with
  | nil => simp
  | cons b0 rest ih =>
    by_cases hb : b0.role = r
    · simp [firstWith, hb] at h
    · simp only [firstWith, if_neg hb] at h
      simp [firstWith, hb, ih h]

theorem updateFirst_of_stable {r m : String} {bs : List Binding} {b : Binding}
    (hf : firstWith r bs = some b) (hm : m ∈ b.members) (hc : b.condition = none) :
    updateFirst r m bs = some bs := by
  induction bs with
  | nil => simp [firstWith] at hf
  | cons b0 rest ih =>
    by_cases hb : b0.role = r
    · have hb0 : b0 = b := by simpa [firstWith, hb] using hf
      subst hb0
      simp [updateFirst, hb, updatedBinding_stable hm hc]
    · simp only [firstWith, if_neg hb] at hf
      simp [updateFirst, hb, ih hf]

/-! Stability: once a role binding contains the member and carries no
condition, `add_or_update_binding` is the identity for that role, and every
further `add_or_update_binding` call keeps it that way. -/

/-- The first binding for role `r` exists, contains `m`, and has no condition. -/
def StableFor (m r : String) (p : PolicyDict) : Prop :=
  ∃ bs b, p.bindings = some bs ∧ firstWith r bs = some b ∧ m ∈ b.members ∧ b.condition = none

theorem stableFor_add (p : PolicyDict) (r m : String) :
    StableFor m r (add_or_update_binding p r m) := by
  cases hb : p.bindings with
  | none =>
    rw [add_or_update_binding_nones r m hb]
    exact ⟨[{ role := r, members := [m], condition := none }],
      { role := r, members := [m], condition := none }, rfl, by simp [firstWith], by simp, rfl⟩
  | some bs =>
    cases hu : updateFirst r m bs with
    | some bs2 =>
      rw [add_or_update_binding_found r m hb hu]
      obtain ⟨b, _, h2⟩ := firstWith_updateFirst_self hu
      exact ⟨bs2, updatedBinding m b, rfl, h2, mem_updatedBinding m b, rfl⟩
    | none =>
      rw [add_or_update_binding_notfound r m hb hu]
      refine ⟨bs ++ [{ role := r, members := [m], condition := none }],
        { role := r, members := [m], condition := none }, rfl, ?_, by simp, rfl⟩
      rw [firstWith_append_none (updateFirst_eq_none.mp hu)]
      simp [firstWith]

theorem add_or_update_binding_of_stable {p : PolicyDict} {r m : String}
    (h : StableFor m r p) : add_or_update_binding p r m = p := by
  obtain ⟨bs, b, hb, hf, hm, hc⟩ := h
  rw [add_or_update_binding_found r m hb (updateFirst_of_stable hf hm hc)]
  cases p with
  | mk v bnd e => simp_all

theorem stableFor_preserved {m r : String} {p : PolicyDict} (h : StableFor m r p)
    (r2 : String) : StableFor m r (add_or_update_binding p r2 m) := by
  by_cases hr : r2 = r
  · subst hr
    exact stableFor_add p r2 m
  · obtain ⟨bs, b, hb, hf, hm, hc⟩ := h
    cases hu : updateFirst r2 m bs with
    | some bs2 =>
      rw [add_or_update_binding_found r2 m hb hu]
      refine ⟨bs2, b, rfl, ?_, hm, hc⟩
      rw [firstWith_updateFirst_other (fun he => hr he.symm) hu]
      exact hf
    | none =>
      rw [add_or_update_binding_notfound r2 m hb hu]
      exact ⟨_, b, rfl, firstWith_append_left hf _, hm, hc⟩

theorem stableFor_foldl {m r : String} {p : PolicyDict} (h : StableFor m r p)
    (l : List String) :
    StableFor m r (l.foldl (fun q r2 => add_or_update_binding q r2 m) p) := by
  induction l generalizing p with
  | nil => simpa using h
  | cons a l ih =>
    rw [List.foldl_cons]
    exact ih (stableFor_preserved h a)

theorem stableFor_all_foldl (m : String) (l : List String) (p : PolicyDict) :
    ∀ r ∈ l, StableFor m r (l.foldl (fun q r2 => add_or_update_binding q r2 m) p) := by
  induction l generalizing p with
  | nil => simp
  | cons a l ih =>
    intro r hr
    rw [List.foldl_cons]
    rcases List.mem_cons.mp hr with h | h
    · subst h
      exact stableFor_foldl (stableFor_add p r m) l
    · exact ih (add_or_update_binding p a m) r h

theorem foldl_eq_of_stable {m : String} {l : List String} {p : PolicyDict}
    (h : ∀ r ∈ l, StableFor m r p) :
    l.foldl (fun q r2 => add_or_update_binding q r2 m) p = p := by
  induction l with
  | nil => rfl
  | cons a l ih =>
    rw [List.foldl_cons, add_or_update_binding_of_stable (h a (by simp))]
    exact ih (fun r hr => h r (by simp [hr]))

/-- The proto object built back from the dict (src/assign_iam_roles.py,
lines 172-182): `Policy(version=dict.get('version', 1), bindings=[Binding(role=..,
members=..) for b in dict.get('bindings', [])], etag=dict.get('etag', b""))`.
The `Binding(...)` constructor call passes no condition, so every condition
present in the dict is dropped here. -/
structure PolicyObj where
  version : Nat
  bindings : List Binding
  etag : String
deriving DecidableEq, Repr

def toPolicyObject (p : PolicyDict) : PolicyObj :=
  { version := p.version.getD 1,
    bindings := (p.bindings.getD []).map
      (fun b => { role := b.role, members := b.members, condition := none }),
    etag := p.etag.getD "" }

/-! Positional frame lemmas: a binding whose role is never targeted keeps its
exact value and position through the role loop. -/

theorem get?_updateFirst_other {r m : String} {bs bs2 : List Binding}
    (h : updateFirst r m bs = some bs2) {i : Nat} {b : Binding}
    (hget : bs.get? i = some b) (hrole : b.role ≠ r) : bs2.get? i = some b := by
  induction bs generalizing bs2 i with
  | nil => simp at hget
  | cons b0 rest ih =>
    by_cases hb : b0.role = r
    · simp only [updateFirst, if_pos hb, Option.some.injEq] at h
      subst h
      cases i with
      | zero =>
        simp only [List.get?_cons_zero, Option.some.injEq] at hget
        subst hget
        exact absurd hb hrole
      | succ i => simpa using hget
    · simp only [updateFirst, if_neg hb] at h
      obtain ⟨rest2, h1, rfl⟩ := Option.map_eq_some'.mp h
      cases i with
      | zero => simpa using hget
      | succ i =>
        simp only [List.get?_cons_succ] at hget ⊢
        exact ih h1 hget

theorem get?_add_or_update_binding_other {p : PolicyDict} {bs : List Binding} {i : Nat}
    {b : Binding} (hb : p.bindings = some bs) (hget : bs.get? i = some b)
    (r m : String) (hrole : b.role ≠ r) :
    ∃ bs2, (add_or_update_binding p r m).bindings = some bs2 ∧ bs2.get? i = some b := by
  cases hu : updateFirst r m bs with
  | some bs2 =>
    rw [add_or_update_binding_found r m hb hu]
    exact ⟨bs2, rfl, get?_updateFirst_other hu hget hrole⟩
  | none =>
    rw [add_or_update_binding_notfound r m hb hu]
    refine ⟨_, rfl, ?_⟩
    obtain ⟨hlt, -⟩ := List.get?_eq_some.mp hget
    rw [List.get?_append hlt]
    exact hget

theorem get?_foldl_other {p : PolicyDict} {bs : List Binding} {i : Nat} {b : Binding}
    (hb : p.bindings = some bs) (hget : bs.get? i = some b) (m : String) {l : List String}
    (hrole : ∀ r ∈ l, b.role ≠ r) :
    ∃ bs2, ((l.foldl (fun q r2 => add_or_update_binding q r2 m) p).bindings = some bs2) ∧
      bs2.get? i = some b := by
  induction l generalizing p bs with
  | nil => exact ⟨bs, hb, hget⟩
  | cons a l ih =>
    rw [List.foldl_cons]
    obtain ⟨bs2, h1, h2⟩ := get?_add_or_update_binding_other hb hget a m (hrole a (by simp))
    exact ih h1 h2 (fun r hr => hrole r (by simp [hr]))

/-- C1: for every policy document, principal, and role set, applying the
binding-diff operation (`add_or_update_binding` folded over the roles in sorted
order, as `main` does) twice with the same principal and role set yields a
document equal to the document obtained by applying it once. -/
theorem claim_C1_binding_diff_idempotent (p : PolicyDict) (member : String)
    (roles : List String) :
    applyRolesLoop (applyRolesLoop p member roles) member roles =
      applyRolesLoop p member roles := by
  unfold applyRolesLoop
  exact foldl_eq_of_stable (fun r hr => stableFor_all_foldl member (sortedDedup roles) p r hr)

/-- C5 as stated is false: the document written back is built by the
`resourcemanager_v3.Policy(...)` conversion of lines 172-182, which omits the
condition of every binding — including a binding whose role is not targeted and
whose members do not contain the principal. Concretely, an untargeted
`roles/x` binding carrying a condition comes back without it. -/
theorem claim_C5_counterexample :
    (toPolicyObject (applyRolesLoop
        { version := some 1,
          bindings := some [{ role := "roles/x", members := ["user:b"], condition := some "c" }],
          etag := some "T" }
        "user:a" ["roles/y"])).bindings.get? 0 ≠
      some { role := "roles/x", members := ["user:b"], condition := some "c" } := by
  intro h
  have he : (toPolicyObject (applyRolesLoop
      { version := some 1,
        bindings := some [{ role := "roles/x", members := ["user:b"], condition := some "c" }],
        etag := some "T" }
      "user:a" ["roles/y"])).bindings.get? 0 =
      some { role := "roles/x", members := ["user:b"], condition := none } := rfl
  rw [he] at h
  simp at h

/-- C5 (amended): applying the delta for principal `member` and role set
`roles` leaves every binding whose role is not in the role set and whose
members do not contain the principal unchanged — same value, same position — in
the modified in-memory document; in the document written back, that binding
keeps its role and members but its condition (like every condition) is dropped
by the conversion of lines 172-182. -/
theorem claim_C5_untargeted_bindings_frame (p : PolicyDict) (member : String)
    (roles : List String) {bs : List Binding} {i : Nat} {b : Binding}
    (hb : p.bindings = some bs) (hget : bs.get? i = some b)
    (hrole : b.role ∉ roles) (hmem : member ∉ b.members) :
    (∃ bs2, (applyRolesLoop p member roles).bindings = some bs2 ∧ bs2.get? i = some b) ∧
    (toPolicyObject (applyRolesLoop p member roles)).bindings.get? i =
      some { role := b.role, members := b.members, condition := none } := by
  have hr : ∀ r ∈ sortedDedup roles, b.role ≠ r := by
    intro r hrm
    rw [mem_sortedDedup] at hrm
    exact fun he => hrole (he ▸ hrm)
  obtain ⟨bs2, h1, h2⟩ := get?_foldl_other hb hget member hr
  refine ⟨⟨bs2, h1, h2⟩, ?_⟩
  show (((applyRolesLoop p member roles).bindings.getD []).map
      (fun x => ({ role := x.role, members := x.members, condition := none } : Binding))).get? i =
    some { role := b.role, members := b.members, condition := none }
  rw [show (applyRolesLoop p member roles).bindings = some bs2 from h1]
  rw [Option.getD_some, List.get?_map, h2]
  rfl

/-- Witness for `claim_C5_untargeted_bindings_frame` at a concrete document. -/
theorem claim_C5_untargeted_bindings_frame_witness :
    (∃ bs2, (applyRolesLoop
        { version := some 1,
          bindings := some [{ role := "roles/x", members := ["user:b"], condition := some "c" }],
          etag := some "T" } "user:a" ["roles/y"]).bindings = some bs2 ∧
      bs2.get? 0 = some { role := "roles/x", members := ["user:b"], condition := some "c" }) ∧
    (toPolicyObject (applyRolesLoop
        { version := some 1,
          bindings := some [{ role := "roles/x", members := ["user:b"], condition := some "c" }],
          etag := some "T" } "user:a" ["roles/y"])).bindings.get? 0 =
      some { role := "roles/x", members := ["user:b"], condition := none } :=
  claim_C5_untargeted_bindings_frame
    { version := some 1,
      bindings := some [{ role := "roles/x", members := ["user:b"], condition := some "c" }],
      etag := some "T" }
    "user:a" ["roles/y"] rfl rfl (by decide) (by decide)

/-! ### Removal of a member (src/deploy_project_owner_remove.py, lines 93-107)

`next((b for b in bindings if b.get("role") == role), None)` picks the first
binding for the role; when the member is in it, `members.remove(member)` drops
the first occurrence, and an emptied binding is removed from the list with
`bindings.remove(owner_binding)` — which erases the first list element equal to
the (already mutated) binding dict; every element before it has a different
role, so that element is the mutated binding itself. -/
def removeMemberBindings (role member : String) : List Binding → List Binding
  | [] => []
  | b :: rest =>
    if b.role = role then
      if member ∈ b.members then
        let ms := b.members.erase member
        if ms.isEmpty then rest else { b with members := ms } :: rest
      else b :: rest
    else b :: removeMemberBindings role member rest

/-- The policy-editing step of `main` in src/deploy_project_owner_remove.py:
no `bindings` key, or no binding for the role, or member absent — the policy
is left as is. -/
def removeMemberRole (p : PolicyDict) (role member : String) : PolicyDict :=
  match p.bindings with
  | none => p
  | some bs => { p with bindings := some (removeMemberBindings role member bs) }

/-- The Binding invariant of the spec: at most one binding per distinct role
value, and unique members within each binding. -/
def PolicyWf (p : PolicyDict) : Prop :=
  ∀ bs, p.bindings = some bs →
    (bs.map Binding.role).Nodup ∧ ∀ b ∈ bs, b.members.Nodup

theorem map_role_updateFirst {r m : String} {bs bs2 : List Binding}
    (h : updateFirst r m bs = some bs2) : bs2.map Binding.role = bs.map Binding.role := by
  induction bs generalizing bs2 with
  | nil => simp [updateFirst] at h
  | cons b rest ih =>
    by_cases hb : b.role = r
    · simp only [updateFirst, if_pos hb, Option.some.injEq] at h
      subst h
      simp [updatedBinding]
    · simp only [updateFirst, if_neg hb] at h
      obtain ⟨rest2, h1, rfl⟩ := Option.map_eq_some'.mp h
      simp [ih h1]

theorem members_nodup_updateFirst {r m : String} {bs bs2 : List Binding}
    (hms : ∀ b ∈ bs, b.members.Nodup) (h : updateFirst r m bs = some bs2) :
    ∀ b ∈ bs2, b.members.Nodup := by
  induction bs generalizing bs2 with
  | nil => simp [updateFirst] at h
  | cons b rest ih =>
    by_cases hb : b.role = r
    · simp only [updateFirst, if_pos hb, Option.some.injEq] at h
      subst h
      intro b2 hb2
      rcases List.mem_cons.mp hb2 with h2 | h2
      · subst h2
        unfold updatedBinding
        by_cases hm : m ∈ b.members
        · simpa [hm] using hms b (by simp)
        · simp only [if_neg hm]
          exact nodup_sortedDedup _
      · exact hms b2 (by simp [h2])
    · simp only [updateFirst, if_neg hb] at h
      obtain ⟨rest2, h1, rfl⟩ := Option.map_eq_some'.mp h
      intro b2 hb2
      rcases List.mem_cons.mp hb2 with h2 | h2
      · subst h2
        exact hms b2 (by simp)
      · exact ih (fun x hx => hms x (by simp [hx])) h1 b2 h2

theorem role_not_mem_of_firstWith_none {r : String} {bs : List Binding}
    (h : firstWith r bs = none) : r ∉ bs.map Binding.role := by
  induction bs with
  | nil => simp
  | cons b rest ih =>
    by_cases hb : b.role = r
    · simp [firstWith, hb] at h
    · simp only [firstWith, if_neg hb] at h
      intro hc
      rcases List.mem_cons.mp hc with he | he
      · exact hb he.symm
      · exact ih h he

theorem nodup_append_singleton {α : Type} {l : List α} {a : α}
    (hl : l.Nodup) (ha : a ∉ l) : (l ++ [a]).Nodup :=
  (List.perm_append_comm).nodup_iff.mpr (List.nodup_cons.mpr ⟨ha, hl⟩)

theorem policyWf_add_or_update_binding {p : PolicyDict} (hp : PolicyWf p) (r m : String) :
    PolicyWf (add_or_update_binding p r m) := by
  intro bs2 h2
  cases hb : p.bindings with
  | none =>
    rw [add_or_update_binding_nones r m hb] at h2
    obtain rfl := Option.some.inj h2
    exact ⟨by simp, by simp⟩
  | some bs =>
    obtain ⟨hroles, hms⟩ := hp bs hb
    cases hu : updateFirst r m bs with
    | some bs3 =>
      rw [add_or_update_binding_found r m hb hu] at h2
      obtain rfl := Option.some.inj h2
      exact ⟨map_role_updateFirst hu ▸ hroles, members_nodup_updateFirst hms hu⟩
    | none =>
      rw [add_or_update_binding_notfound r m hb hu] at h2
      obtain rfl := Option.some.inj h2
      constructor
      · rw [List.map_append]
        exact nodup_append_singleton hroles
          (by simpa using role_not_mem_of_firstWith_none (updateFirst_eq_none.mp hu))
      · intro b hbm
        rcases List.mem_append.mp hbm with h | h
        · exact hms b h
        · simp only [List.mem_singleton] at h
          subst h
          simp

theorem map_role_removeMemberBindings_sublist (r m : String) (bs : List Binding) :
    ((removeMemberBindings r m bs).map Binding.role).Sublist (bs.map Binding.role) := by
  induction bs with
  | nil => simp [removeMemberBindings]
  | cons b rest ih =>
    by_cases hb : b.role = r
    · by_cases hm : m ∈ b.members
      · by_cases he : (b.members.erase m).isEmpty
        · simp only [removeMemberBindings, if_pos hb, if_pos hm, if_pos he]
          exact (List.Sublist.refl _).trans (List.sublist_cons_self _ _)
        · simp only [removeMemberBindings, if_pos hb, if_pos hm, if_neg he, List.map_cons]
          exact (List.Sublist.refl _)
      · simp only [removeMemberBindings, if_pos hb, if_neg hm]
        exact List.Sublist.refl _
    · simp only [removeMemberBindings, if_neg hb, List.map_cons]
      exact ih.cons₂ b.role

theorem members_nodup_removeMemberBindings {r m : String} {bs : List Binding}
    (hms : ∀ b ∈ bs, b.members.Nodup) :
    ∀ b ∈ removeMemberBindings r m bs, b.members.Nodup := by
  induction bs with
  | nil => simp [removeMemberBindings]
  | cons b rest ih =>
    by_cases hb : b.role = r
    · by_cases hm : m ∈ b.members
      · by_cases he : (b.members.erase m).isEmpty
        · simp only [removeMemberBindings, if_pos hb, if_pos hm, if_pos he]
          exact fun x hx => hms x (by simp [hx])
        · simp only [removeMemberBindings, if_pos hb, if_pos hm, if_neg he]
          intro x hx
          rcases List.mem_cons.mp hx with h2 | h2
          · subst h2
            exact (hms b (by simp)).erase m
          · exact hms x (by simp [h2])
      · simp only [removeMemberBindings, if_pos hb, if_neg hm]
        exact hms
    · simp only [removeMemberBindings, if_neg hb]
      intro x hx
      rcases List.mem_cons.mp hx with h2 | h2
      · subst h2
        exact hms x (by simp)
      · exact ih (fun y hy => hms y (by simp [hy])) x h2

theorem policyWf_removeMemberRole {p : PolicyDict} (hp : PolicyWf p) (r m : String) :
    PolicyWf (removeMemberRole p r m) := by
  intro bs2 h2
  cases hb : p.bindings with
  | none =>
    unfold removeMemberRole at h2
    rw [hb] at h2
    exact hp bs2 (hb.symm ▸ h2)
  | some bs =>
    obtain ⟨hroles, hms⟩ := hp bs hb
    unfold removeMemberRole at h2
    rw [hb] at h2
    obtain rfl := Option.some.inj h2
    exact ⟨hroles.sublist (map_role_removeMemberBindings_sublist r m bs),
      members_nodup_removeMemberBindings hms⟩

/-- C8: a policy document satisfying the Binding invariant (at most one binding
per distinct role, unique members within a binding) still satisfies it after
either binding-modifying operation: `add_or_update_binding` (adding a member or
a new role binding) and the owner-removal step (removing a member and dropping
an emptied binding). -/
theorem claim_C8_invariant_preserved (p : PolicyDict) (r m r2 m2 : String)
    (hp : PolicyWf p) :
    PolicyWf (add_or_update_binding p r m) ∧ PolicyWf (removeMemberRole p r2 m2) :=
  ⟨policyWf_add_or_update_binding hp r m, policyWf_removeMemberRole hp r2 m2⟩

/-- Witness for `claim_C8_invariant_preserved` at a concrete document: add
`user:a` to a fresh role `roles/a` and remove `serviceAccount:s` from
`roles/owner` (which empties and drops that binding). -/
theorem claim_C8_invariant_preserved_witness :
    PolicyWf (add_or_update_binding
      { version := some 1,
        bindings := some [{ role := "roles/owner", members := ["serviceAccount:s"], condition := none }],
        etag := some "T" } "roles/a" "user:a") ∧
    PolicyWf (removeMemberRole
      { version := some 1,
        bindings := some [{ role := "roles/owner", members := ["serviceAccount:s"], condition := none }],
        etag := some "T" } "roles/owner" "serviceAccount:s") :=
  claim_C8_invariant_preserved
    { version := some 1,
      bindings := some [{ role := "roles/owner", members := ["serviceAccount:s"], condition := none }],
      etag := some "T" } "roles/a" "user:a" "roles/owner" "serviceAccount:s"
    (by
      intro bs hbs
      cases Option.some.inj hbs
      exact ⟨by decide, by decide⟩)

/-! ### The fetch / modify / dry-run-or-apply flow of `main`
(src/assign_iam_roles.py, lines 148-213) -/

/-- The `--mode` flag, fixed for the whole invocation. -/
inductive Mode
  | dryRun
  | applyMode
deriving DecidableEq, Repr

/-- Error surface of the scripts, named after the spec's taxonomy. -/
inductive AppError
  | storeUnavailable (msg : String)
  | missingToken
  | unknownBundle (name : String)
  | noCapacity
deriving DecidableEq, Repr

/-- Calls `main` makes on the resource-manager client. -/
inductive GcpOp
  | getIamPolicy
  | setIamPolicy (p : PolicyObj)
deriving DecidableEq, Repr

/-- The remote responses a given invocation would observe. -/
structure GcpEnv where
  fetchResult : Except String PolicyDict
  setResult : Except String Unit

/-- Lines 148-213 of src/assign_iam_roles.py after the roles were collected:
fetch the policy (exit on failure), fold `add_or_update_binding` over the
sorted roles, rebuild the proto object (etag defaulted to `b""`), then either
print (dry-run) or call `set_iam_policy` (apply). Returns the outcome and the
trace of client calls. -/
def assignMain (mode : Mode) (member : String) (roles : List String) (env : GcpEnv) :
    Except AppError Unit × List GcpOp :=
  match env.fetchResult with
  | Except.error e => (Except.error (AppError.storeUnavailable e), [GcpOp.getIamPolicy])
  | Except.ok current =>
    let modified := applyRolesLoop current member roles
    let obj := toPolicyObject modified
    match mode with
    | Mode.dryRun => (Except.ok (), [GcpOp.getIamPolicy])
    | Mode.applyMode =>
      match env.setResult with
      | Except.ok _ => (Except.ok (), [GcpOp.getIamPolicy, GcpOp.setIamPolicy obj])
      | Except.error e =>
        (Except.error (AppError.storeUnavailable e), [GcpOp.getIamPolicy, GcpOp.setIamPolicy obj])

theorem add_or_update_binding_etag (q : PolicyDict) (r m : String) :
    (add_or_update_binding q r m).etag = q.etag := by
  cases hb : q.bindings with
  | none => rw [add_or_update_binding_nones r m hb]
  | some bs =>
    cases hu : updateFirst r m bs with
    | some bs2 => rw [add_or_update_binding_found r m hb hu]
    | none => rw [add_or_update_binding_notfound r m hb hu]

theorem applyRolesLoop_foldl_etag (m : String) (l : List String) (q : PolicyDict) :
    (l.foldl (fun a r => add_or_update_binding a r m) q).etag = q.etag := by
  induction l generalizing q with
  | nil => rfl
  | cons a l ih => rw [List.foldl_cons, ih, add_or_update_binding_etag]

theorem applyRolesLoop_etag (q : PolicyDict) (m : String) (roles : List String) :
    (applyRolesLoop q m roles).etag = q.etag :=
  applyRolesLoop_foldl_etag m (sortedDedup roles) q

/-! ### src/deploy_project_owner_remove.py, `main` (lines 85-121) -/

/-- Python truthiness of `policy.get("etag")`: falsy when the key is absent or
the value is the empty string. -/
def etagFalsy : Option String → Bool
  | none => true
  | some s => s.isEmpty

/-- Calls made through `run_command` on gcloud. -/
inductive GcloudOp
  | getIamPolicy
  | setIamPolicy (p : PolicyDict)
deriving DecidableEq, Repr

/-- Lines 85-121 of src/deploy_project_owner_remove.py, given the fetched
policy: `if not original_etag:` aborts before any modification; otherwise the
`roles/owner` binding is searched, the member removed when present (dropping an
emptied binding), and `set-iam-policy` is called only when the policy was
modified. -/
def ownerRemoveMain (email : String) (fetched : PolicyDict) :
    Except AppError Unit × List GcloudOp :=
  let member := "serviceAccount:" ++ email
  if etagFalsy fetched.etag then
    (Except.error AppError.missingToken, [GcloudOp.getIamPolicy])
  else
    let modified : Bool :=
      match firstWith "roles/owner" (fetched.bindings.getD []) with
      | some b => decide (member ∈ b.members)
      | none => false
    if modified then
      (Except.ok (),
        [GcloudOp.getIamPolicy, GcloudOp.setIamPolicy (removeMemberRole fetched "roles/owner" member)])
    else (Except.ok (), [GcloudOp.getIamPolicy])

/-- C2 (statement split): the part about src/assign_iam_roles.py; combined with
the src/in.py part in `claim_C2_dry_run_purity`. -/
theorem assignMain_dry_run_trace (env : GcpEnv) (member : String) (roles : List String) :
    (assignMain Mode.dryRun member roles env).2 = [GcpOp.getIamPolicy] ∧
    (∀ p, env.fetchResult = Except.ok p →
      assignMain Mode.dryRun member roles env = (Except.ok (), [GcpOp.getIamPolicy])) := by
  obtain ⟨fr, sr⟩ := env
  cases fr with
  | error e => exact ⟨rfl, fun p hp => absurd hp (by simp)⟩
  | ok q => exact ⟨rfl, fun p hp => rfl⟩

/-- C3 as stated is false for src/assign_iam_roles.py: a policy fetched with no
etag is still mutated — the rebuild at lines 172-182 defaults the token with
`modified_policy_dict.get('etag', b"")` and the apply branch issues the write
with that empty token instead of failing with MissingToken. -/
theorem claim_C3_counterexample :
    (assignMain Mode.applyMode "user:a" ["roles/viewer"]
        { fetchResult := Except.ok { version := some 1, bindings := some [], etag := none },
          setResult := Except.ok () }).2 =
      [GcpOp.getIamPolicy,
       GcpOp.setIamPolicy
         { version := 1,
           bindings := [{ role := "roles/viewer", members := ["user:a"], condition := none }],
           etag := "" }] := rfl

/-- C3 (amended): the owner-removal script does implement the guard — a falsy
etag (absent key or empty string) fails before any write, with only the fetch
issued — but the role-assignment script does not: with a token-less fetched
policy its apply mode still issues the write, with the etag defaulted to the
empty string. -/
theorem claim_C3_missing_token_guard (email : String) (fetched : PolicyDict)
    (hf : etagFalsy fetched.etag = true) (env : GcpEnv) (member : String)
    (roles : List String) (p : PolicyDict) (henv : env.fetchResult = Except.ok p)
    (hp : p.etag = none) :
    ownerRemoveMain email fetched =
      (Except.error AppError.missingToken, [GcloudOp.getIamPolicy]) ∧
    ∃ obj, (assignMain Mode.applyMode member roles env).2 =
        [GcpOp.getIamPolicy, GcpOp.setIamPolicy obj] ∧ obj.etag = "" := by
  constructor
  · unfold ownerRemoveMain
    rw [hf]
    rfl
  · obtain ⟨fr, sr⟩ := env
    simp only at henv
    subst henv
    have hobj : (toPolicyObject (applyRolesLoop p member roles)).etag = "" := by
      unfold toPolicyObject
      rw [applyRolesLoop_etag, hp]
      rfl
    cases sr with
    | ok u => exact ⟨toPolicyObject (applyRolesLoop p member roles), rfl, hobj⟩
    | error e => exact ⟨toPolicyObject (applyRolesLoop p member roles), rfl, hobj⟩

/-- Witness for `claim_C3_missing_token_guard` at concrete inputs. -/
theorem claim_C3_missing_token_guard_witness :
    ownerRemoveMain "sa@p.iam.gserviceaccount.com"
        { version := some 1, bindings := some [], etag := none } =
      (Except.error AppError.missingToken, [GcloudOp.getIamPolicy]) ∧
    ∃ obj, (assignMain Mode.applyMode "user:a" ["roles/viewer"]
        { fetchResult := Except.ok { version := some 1, bindings := some [], etag := none },
          setResult := Except.ok () }).2 =
        [GcpOp.getIamPolicy, GcpOp.setIamPolicy obj] ∧ obj.etag = "" :=
  claim_C3_missing_token_guard "sa@p.iam.gserviceaccount.com"
    { version := some 1, bindings := some [], etag := none } rfl
    { fetchResult := Except.ok { version := some 1, bindings := some [], etag := none },
      setResult := Except.ok () } "user:a" ["roles/viewer"]
    { version := some 1, bindings := some [], etag := none } rfl rfl

/-! ### Infoblox IPAM scripts -/

/-- A network object as returned by a WAPI query; `ref` stands for the `_ref`
field used to address the object in a delete call. -/
structure IbNetwork where
  ref : String
  network : String
deriving DecidableEq, Repr

/-- HTTP calls a script makes against the WAPI endpoint. -/
inductive IbOp
  | getNetworks (view network comment : String)
  | postNetwork (view network comment : String)
  | deleteRef (ref : String)
deriving DecidableEq, Repr

/-- The responses the store would give to the calls of one invocation. -/
structure IbEnv where
  getStatus : Nat
  getMatches : List IbNetwork
  postStatus : Nat
  deleteStatus : Nat

/-- Function `reserve_ip(network_view, supernet, cidr, subnet_name, dry_run)`
(src/in.py, lines 21-43): in dry-run the function returns before any request;
otherwise one POST is sent and a non-201 status raises. -/
def reserve_ip (network_view supernet cidr subnet_name : String) (dry_run : Bool)
    (ib : IbEnv) : Except String Unit × List IbOp :=
  if dry_run then (Except.ok (), [])
  else
    let ops := [IbOp.postNetwork network_view
      ("func:nextavailablenetwork:" ++ supernet ++ "," ++ cidr) subnet_name]
    if ib.postStatus ≠ 201 then (Except.error "Reservation failed", ops)
    else (Except.ok (), ops)

/-- Function `delete_reservation(network_view, cidr, subnet_name, dry_run)`
(src/in.py, lines 45-66): in dry-run the function returns before any request;
otherwise the (view, network, comment) query runs, a non-200 status or an
empty result raises `Reservation not found` (an uncaught exception: the
process exits non-zero), and otherwise `response.json()[0]['_ref']` — the
first match — is deleted. -/
def delete_reservation (network_view cidr subnet_name : String) (dry_run : Bool)
    (ib : IbEnv) : Except String Unit × List IbOp :=
  if dry_run then (Except.ok (), [])
  else
    let q := [IbOp.getNetworks network_view cidr subnet_name]
    if ib.getStatus ≠ 200 then (Except.error "Reservation not found", q)
    else
      match ib.getMatches with
      | [] => (Except.error "Reservation not found", q)
      | m1 :: _ =>
        if ib.deleteStatus ≠ 200 then
          (Except.error "Deletion failed", q ++ [IbOp.deleteRef m1.ref])
        else (Except.ok (), q ++ [IbOp.deleteRef m1.ref])

/-- Function `delete_cidr(session, network_view_ref, cidr, subnet_name)`
(src/infob-auomation-v2/infob_ip.py, lines 147-187): query by (network,
prefixlen, view, comment); an empty result prints `not found` and returns
False; otherwise the loop deletes the first result and immediately returns
True (the `return True` sits inside the loop body). `raise_for_status` on a
4xx/5xx response is caught and turns into False. -/
def delete_cidr (network_view_ref cidr subnet_name : String) (ib : IbEnv) :
    Bool × List IbOp :=
  let q := [IbOp.getNetworks network_view_ref cidr subnet_name]
  if 400 ≤ ib.getStatus then (false, q)
  else
    match ib.getMatches with
    | [] => (false, q)
    | m1 :: _ =>
      if 400 ≤ ib.deleteStatus then (false, q ++ [IbOp.deleteRef m1.ref])
      else (true, q ++ [IbOp.deleteRef m1.ref])

/-- The delete branch of `main` (src/infob-auomation-v2/infob_ip.py, lines
279-295), after the network view was resolved (the preceding session and view
lookups are read-only): exit code 0 when `delete_cidr` returned True,
otherwise `sys.exit(1)`. -/
def v2MainDelete (network_view_ref cidr subnet_name : String) (ib : IbEnv) :
    Nat × List IbOp :=
  match delete_cidr network_view_ref cidr subnet_name ib with
  | (true, ops) => (0, ops)
  | (false, ops) => (1, ops)

/-- C2: an invocation run in dry-run mode never calls the store's write,
create, or delete operations, for every input and every computed delta: the
assign-roles flow issues only the policy fetch (and terminates successfully
after rendering once the fetch succeeded), and the reserve / delete helpers of
src/in.py return before contacting the store at all. -/
theorem claim_C2_dry_run_purity (env : GcpEnv) (member : String) (roles : List String)
    (ib : IbEnv) (network_view supernet cidr subnet_name : String) :
    (assignMain Mode.dryRun member roles env).2 = [GcpOp.getIamPolicy] ∧
    (∀ p, env.fetchResult = Except.ok p →
      assignMain Mode.dryRun member roles env = (Except.ok (), [GcpOp.getIamPolicy])) ∧
    reserve_ip network_view supernet cidr subnet_name true ib = (Except.ok (), []) ∧
    delete_reservation network_view cidr subnet_name true ib = (Except.ok (), []) := by
  obtain ⟨h1, h2⟩ := assignMain_dry_run_trace env member roles
  exact ⟨h1, h2, rfl, rfl⟩

/-- Witness for `claim_C2_dry_run_purity` at a concrete environment. -/
theorem claim_C2_dry_run_purity_witness :
    (assignMain Mode.dryRun "user:a" ["roles/viewer"]
        { fetchResult := Except.ok { version := some 1, bindings := some [], etag := some "T" },
          setResult := Except.ok () }).2 = [GcpOp.getIamPolicy] ∧
    (∀ p, ({ fetchResult := Except.ok { version := some 1, bindings := some [], etag := some "T" },
             setResult := Except.ok () } : GcpEnv).fetchResult = Except.ok p →
      assignMain Mode.dryRun "user:a" ["roles/viewer"]
          { fetchResult := Except.ok { version := some 1, bindings := some [], etag := some "T" },
            setResult := Except.ok () } = (Except.ok (), [GcpOp.getIamPolicy])) ∧
    reserve_ip "prod" "10.0.0.0/16" "26" "team-x" true
        { getStatus := 200, getMatches := [], postStatus := 201, deleteStatus := 200 } =
      (Except.ok (), []) ∧
    delete_reservation "prod" "10.0.1.0/26" "team-x" true
        { getStatus := 200, getMatches := [], postStatus := 201, deleteStatus := 200 } =
      (Except.ok (), []) :=
  claim_C2_dry_run_purity
    { fetchResult := Except.ok { version := some 1, bindings := some [], etag := some "T" },
      setResult := Except.ok () } "user:a" ["roles/viewer"]
    { getStatus := 200, getMatches := [], postStatus := 201, deleteStatus := 200 }
    "prod" "10.0.0.0/16" "26" "team-x"

/-- C4 as stated is false: with two stored blocks matching the exact (view,
network, label) triple, src/in.py's `delete_reservation` does not fail with an
Ambiguous error — it deletes `response.json()[0]['_ref']`, the first match,
and reports success. -/
theorem claim_C4_counterexample :
    delete_reservation "prod" "10.0.1.0/26" "team-x" false
        { getStatus := 200,
          getMatches := [{ ref := "ref1", network := "10.0.1.0/26" },
                         { ref := "ref2", network := "10.0.1.0/26" }],
          postStatus := 201, deleteStatus := 200 } =
      (Except.ok (), [IbOp.getNetworks "prod" "10.0.1.0/26" "team-x", IbOp.deleteRef "ref1"]) :=
  rfl

/-- C4 (amended): when more than one stored block matches the exact (view,
network, label) triple, both implementations automatically pick the first
match: src/in.py deletes exactly the first match's ref and succeeds, and
src/infob-auomation-v2's `delete_cidr` deletes the first result and returns
True right away; no Ambiguous failure exists. -/
theorem claim_C4_first_match_deleted (network_view cidr subnet_name : String) (ib : IbEnv)
    (m1 m2 : IbNetwork) (rest : List IbNetwork) (hs : ib.getStatus = 200)
    (hd : ib.deleteStatus = 200) (hm : ib.getMatches = m1 :: m2 :: rest) :
    delete_reservation network_view cidr subnet_name false ib =
      (Except.ok (), [IbOp.getNetworks network_view cidr subnet_name, IbOp.deleteRef m1.ref]) ∧
    delete_cidr network_view cidr subnet_name ib =
      (true, [IbOp.getNetworks network_view cidr subnet_name, IbOp.deleteRef m1.ref]) := by
  obtain ⟨gs, gm, ps, ds⟩ := ib
  simp only at hs hd hm
  subst hs
  subst hd
  subst hm
  exact ⟨rfl, rfl⟩

/-- Witness for `claim_C4_first_match_deleted` at a concrete store. -/
theorem claim_C4_first_match_deleted_witness :
    delete_reservation "prod" "10.0.1.0/26" "team-x" false
        { getStatus := 200,
          getMatches := [{ ref := "refA", network := "10.0.1.0/26" },
                         { ref := "refB", network := "10.0.1.0/26" }],
          postStatus := 201, deleteStatus := 200 } =
      (Except.ok (), [IbOp.getNetworks "prod" "10.0.1.0/26" "team-x", IbOp.deleteRef "refA"]) ∧
    delete_cidr "prod" "10.0.1.0/26" "team-x"
        { getStatus := 200,
          getMatches := [{ ref := "refA", network := "10.0.1.0/26" },
                         { ref := "refB", network := "10.0.1.0/26" }],
          postStatus := 201, deleteStatus := 200 } =
      (true, [IbOp.getNetworks "prod" "10.0.1.0/26" "team-x", IbOp.deleteRef "refA"]) :=
  claim_C4_first_match_deleted "prod" "10.0.1.0/26" "team-x"
    { getStatus := 200,
      getMatches := [{ ref := "refA", network := "10.0.1.0/26" },
                     { ref := "refB", network := "10.0.1.0/26" }],
      postStatus := 201, deleteStatus := 200 }
    { ref := "refA", network := "10.0.1.0/26" } { ref := "refB", network := "10.0.1.0/26" }
    [] rfl rfl rfl

/-- C6 as stated is false: a delete whose exact lookup returns zero matches is
treated as an error by both implementations — src/in.py raises `Reservation
not found` (the exception is uncaught, so the process exits non-zero), and
src/infob-auomation-v2's `main` prints a failure and calls `sys.exit(1)`.
Neither reports a successful "nothing to delete" outcome. -/
theorem claim_C6_counterexample :
    (v2MainDelete "prod" "10.0.1.0/26" "team-x"
        { getStatus := 200, getMatches := [], postStatus := 201, deleteStatus := 200 }).1 = 1 ∧
    (delete_reservation "prod" "10.0.1.0/26" "team-x" false
        { getStatus := 200, getMatches := [], postStatus := 201, deleteStatus := 200 }).1 =
      Except.error "Reservation not found" :=
  ⟨rfl, rfl⟩

/-- C6 (amended): a deletion request whose exact lookup returns zero matches is
an error for both implementations: src/in.py raises `Reservation not found`
(non-zero process exit) and the v2 script's delete branch exits with code 1;
in both cases no delete call is issued. -/
theorem claim_C6_not_found_is_error (network_view cidr subnet_name : String) (ib : IbEnv)
    (hs : ib.getStatus = 200) (hm : ib.getMatches = []) :
    delete_reservation network_view cidr subnet_name false ib =
      (Except.error "Reservation not found", [IbOp.getNetworks network_view cidr subnet_name]) ∧
    v2MainDelete network_view cidr subnet_name ib =
      (1, [IbOp.getNetworks network_view cidr subnet_name]) := by
  obtain ⟨gs, gm, ps, ds⟩ := ib
  simp only at hs hm
  subst hs
  subst hm
  exact ⟨rfl, rfl⟩

/-- Witness for `claim_C6_not_found_is_error` at the spec's scenario inputs. -/
theorem claim_C6_not_found_is_error_witness :
    delete_reservation "prod" "10.0.1.0/26" "team-x" false
        { getStatus := 200, getMatches := [], postStatus := 201, deleteStatus := 200 } =
      (Except.error "Reservation not found", [IbOp.getNetworks "prod" "10.0.1.0/26" "team-x"]) ∧
    v2MainDelete "prod" "10.0.1.0/26" "team-x"
        { getStatus := 200, getMatches := [], postStatus := 201, deleteStatus := 200 } =
      (1, [IbOp.getNetworks "prod" "10.0.1.0/26" "team-x"]) :=
  claim_C6_not_found_is_error "prod" "10.0.1.0/26" "team-x"
    { getStatus := 200, getMatches := [], postStatus := 201, deleteStatus := 200 } rfl rfl

/-! ### src/infoblox/infoblox_reserve_cidr.py -/

/-- WAPI calls of the reservation workflow script. -/
inductive WapiOp
  | queryNextAvailable (view supernet : String) (size : Nat)
  | createNetwork (view network comment siteCode : String)
deriving DecidableEq, Repr

/-- Store responses for one invocation of the reservation workflow. -/
structure WapiEnv where
  availStatusOk : Bool
  availData : List String
  createOk : Bool

/-- Function `find_next_available_cidr(session, infoblox_url, network_view, supernet_ip,
cidr_block_size)` (lines 21-85): a single GET asking for one next-available
network of the requested size; an HTTP error, a parse failure or an empty list
yields None — there is no retry. The response list is modelled as the CIDR
strings Infoblox returns. -/
def find_next_available_cidr (network_view supernet_ip : String) (cidr_block_size : Nat)
    (env : WapiEnv) : Option String × List WapiOp :=
  let ops := [WapiOp.queryNextAvailable network_view supernet_ip cidr_block_size]
  if !env.availStatusOk then (none, ops)
  else
    match env.availData with
    | [] => (none, ops)
    | c :: _ => (some c, ops)

/-- The dry-run branch of `main` (lines 202-230): the branch where the
allocation happens; a None from `find_next_available_cidr` logs
`DRY RUN FAILED` and calls `exit(1)` before any reservation; on success the
proposed subnet is only printed (no create call in this branch either). -/
def reserveMainDryRun (network_view supernet_ip subnet_name : String)
    (cidr_block_size : Nat) (env : WapiEnv) : Except AppError String × List WapiOp :=
  match find_next_available_cidr network_view supernet_ip cidr_block_size env with
  | (some c, ops) => (Except.ok c, ops)
  | (none, ops) => (Except.error AppError.noCapacity, ops)

/-- C9: when the store reports no free child block of the requested prefix
length within the parent, the allocation workflow fails (NoCapacity: the
script exits 1), and its trace is exactly one next-available query of the
requested size — no `createNetwork` call and no retry with a different size. -/
theorem claim_C9_no_capacity (network_view supernet_ip subnet_name : String)
    (cidr_block_size : Nat) (env : WapiEnv) (hok : env.availStatusOk = true)
    (hempty : env.availData = []) :
    reserveMainDryRun network_view supernet_ip subnet_name cidr_block_size env =
      (Except.error AppError.noCapacity,
       [WapiOp.queryNextAvailable network_view supernet_ip cidr_block_size]) := by
  obtain ⟨a, d, c⟩ := env
  simp only at hok hempty
  subst hok
  subst hempty
  rfl

/-- Witness for `claim_C9_no_capacity` at the spec's scenario: a `/26` from
parent `10.0.0.0/16` in view `prod`, with the store reporting no free block. -/
theorem claim_C9_no_capacity_witness :
    reserveMainDryRun "prod" "10.0.0.0/16" "team-x" 26
        { availStatusOk := true, availData := [], createOk := true } =
      (Except.error AppError.noCapacity, [WapiOp.queryNextAvailable "prod" "10.0.0.0/16" 26]) :=
  claim_C9_no_capacity "prod" "10.0.0.0/16" "team-x" 26
    { availStatusOk := true, availData := [], createOk := true } rfl rfl

/-! ### Bundled-role resolution (src/assign_iam_roles.py, lines 15-48) -/

/-- The static `bundled_roles_map` dict, as an association list in source
order. -/
def bundled_roles_map : List (String × List String) :=
  [("GenAIUser",
     ["roles/artifactregistry.admin", "roles/aiplatform.user", "roles/notebooks.admin",
      "roles/storage.admin", "roles/bigquery.dataEditor", "roles/bigquery.jobUser",
      "roles/dlp.admin"]),
   ("GenAIViewer",
     ["roles/aiplatform.viewer", "roles/bigquery.dataViewer", "roles/storage.objectViewer",
      "roles/notebooks.viewer", "roles/dlp.jobsReader"]),
   ("GenAIFeatureStoreUser", ["roles/aiplatform.featurestoreUser"]),
   ("GenAIFeatureStoreViewer",
     ["roles/aiplatform.featurestoreDataViewer", "roles/aiplatform.featurestoreResourceViewer"]),
   ("GenAppBuilderUser", ["roles/discoveryengine.editor"])]

/-- Function `get_bundled_roles(bundle_name)`: `bundled_roles_map.get(bundle_name, [])`
— lookup by exact key equality, empty list when absent. -/
def get_bundled_roles (bundle_name : String) : List String :=
  match bundled_roles_map.find? (fun kv => kv.1 == bundle_name) with
  | some kv => kv.2
  | none => []

/-- The bundled-roles branch of `main` (lines 137-141): an empty resolution
aborts with `Unknown bundled role name` and `sys.exit(1)` before any policy is
fetched or mutated. -/
def resolveBundleStep (bundle_name : String) : Except AppError (List String) :=
  match get_bundled_roles bundle_name with
  | [] => Except.error (AppError.unknownBundle bundle_name)
  | rs => Except.ok rs

/-- C10: bundle resolution is a pure lookup in the static table:
`GenAIUser` resolves to its fixed non-empty role list; any name that is not
exactly one of the table's keys (partial matches included) resolves to the
empty list, and `main` then fails with the unknown-bundle error before
mutating anything. -/
theorem claim_C10_bundle_resolution (bundle_name : String)
    (h : ∀ kv ∈ bundled_roles_map, kv.1 ≠ bundle_name) :
    get_bundled_roles "GenAIUser" =
      ["roles/artifactregistry.admin", "roles/aiplatform.user", "roles/notebooks.admin",
       "roles/storage.admin", "roles/bigquery.dataEditor", "roles/bigquery.jobUser",
       "roles/dlp.admin"] ∧
    get_bundled_roles "GenAIUser" ≠ [] ∧
    get_bundled_roles bundle_name = [] ∧
    resolveBundleStep bundle_name = Except.error (AppError.unknownBundle bundle_name) := by
  have hnone : bundled_roles_map.find? (fun kv => kv.1 == bundle_name) = none := by
    rw [List.find?_eq_none]
    intro kv hkv
    simpa using h kv hkv
  have hempty : get_bundled_roles bundle_name = [] := by
    simp [get_bundled_roles, hnone]
  refine ⟨rfl, by decide, hempty, ?_⟩
  simp [resolveBundleStep, hempty]

/-- Witness for `claim_C10_bundle_resolution` at `no-such-bundle`. -/
theorem claim_C10_bundle_resolution_witness :
    get_bundled_roles "GenAIUser" =
      ["roles/artifactregistry.admin", "roles/aiplatform.user", "roles/notebooks.admin",
       "roles/storage.admin", "roles/bigquery.dataEditor", "roles/bigquery.jobUser",
       "roles/dlp.admin"] ∧
    get_bundled_roles "GenAIUser" ≠ [] ∧
    get_bundled_roles "no-such-bundle" = [] ∧
    resolveBundleStep "no-such-bundle" =
      Except.error (AppError.unknownBundle "no-such-bundle") :=
  claim_C10_bundle_resolution "no-such-bundle" (by decide)

/-! ### C7: the shallow copy at line 164 of src/assign_iam_roles.py -/

/-- Lines 163-169 of src/assign_iam_roles.py with Python aliasing made
explicit. `modified_policy_dict = current_policy_dict.copy()` is a SHALLOW
copy: the copy holds the same bindings-list object and the same binding dicts
as the fetched dict. Every mutation `add_or_update_binding` performs —
in-place `append` on the list, in-place update of a binding dict — goes
through those shared objects, except that when the `bindings` key is missing
(or None) a fresh list is installed on the copy alone (`policy['bindings'] =
[]`), leaving the fetched dict untouched. The function returns the pair
(fetched dict as observable after the loop, modified dict). -/
def mainModifyShared (fetched : PolicyDict) (member : String) (roles : List String) :
    PolicyDict × PolicyDict :=
  let modified := applyRolesLoop fetched member roles
  match fetched.bindings with
  | none => (fetched, modified)
  | some _ => ({ fetched with bindings := modified.bindings }, modified)

/-- C7 as stated is false: the copy is shallow, so computing the delta mutates
the fetched document too. Concretely, a fetched policy with an (empty)
bindings list gains the new binding in place: after the loop the fetched dict
no longer equals its as-fetched value. -/
theorem claim_C7_counterexample :
    (mainModifyShared { version := some 1, bindings := some [], etag := some "T" }
        "user:a" ["roles/a"]).1 ≠
      { version := some 1, bindings := some [], etag := some "T" } := by
  intro h
  have he : (mainModifyShared { version := some 1, bindings := some [], etag := some "T" }
      "user:a" ["roles/a"]).1 =
      { version := some 1,
        bindings := some [{ role := "roles/a", members := ["user:a"], condition := none }],
        etag := some "T" } := rfl
  rw [he] at h
  simp at h

theorem sortedDedup_singleton (a : String) : sortedDedup [a] = [a] := rfl

/-- C7 (amended): the binding-diff loop operates on a shallow copy whose
bindings list is shared with the fetched dict, so whenever the fetched policy
carried a bindings list, the fetched dict observed after the loop carries the
modified bindings — in particular, adding a role absent from the fetched
policy changes the fetched dict itself. Only a fetched dict without a bindings
key keeps its original value (the copy then gets a fresh list). -/
theorem claim_C7_fetched_dict_mutated (fetched : PolicyDict) (member r : String)
    {bs : List Binding} (hb : fetched.bindings = some bs)
    (hf : firstWith r bs = none) :
    (mainModifyShared fetched member [r]).1.bindings =
      (applyRolesLoop fetched member [r]).bindings ∧
    (mainModifyShared fetched member [r]).1 ≠ fetched ∧
    (∀ q : PolicyDict, q.bindings = none → (mainModifyShared q member [r]).1 = q) := by
  have hloop : (applyRolesLoop fetched member [r]).bindings =
      some (bs ++ [{ role := r, members := [member], condition := none }]) := by
    unfold applyRolesLoop
    rw [sortedDedup_singleton, List.foldl_cons, List.foldl_nil,
      add_or_update_binding_notfound r member hb (updateFirst_eq_none.mpr hf)]
  refine ⟨?_, ?_, ?_⟩
  · unfold mainModifyShared
    rw [hb]
  · intro hcontra
    have hbind : (mainModifyShared fetched member [r]).1.bindings =
        some (bs ++ [{ role := r, members := [member], condition := none }]) := by
      unfold mainModifyShared
      rw [hb]
      exact hloop
    rw [hcontra, hb] at hbind
    have hlist := Option.some.inj hbind
    have hlen := congrArg List.length hlist
    simp at hlen
  · intro q hq
    unfold mainModifyShared
    rw [hq]

/-- Witness for `claim_C7_fetched_dict_mutated` at a concrete fetched policy. -/
theorem claim_C7_fetched_dict_mutated_witness :
    (mainModifyShared { version := some 1, bindings := some [], etag := some "T" }
        "user:a" ["roles/a"]).1.bindings =
      (applyRolesLoop { version := some 1, bindings := some [], etag := some "T" }
        "user:a" ["roles/a"]).bindings ∧
    (mainModifyShared { version := some 1, bindings := some [], etag := some "T" }
        "user:a" ["roles/a"]).1 ≠
      { version := some 1, bindings := some [], etag := some "T" } ∧
    (∀ q : PolicyDict, q.bindings = none →
      (mainModifyShared q "user:a" ["roles/a"]).1 = q) :=
  claim_C7_fetched_dict_mutated
    { version := some 1, bindings := some [], etag := some "T" } "user:a" "roles/a" rfl rfl
